import Mathlib

/-!
Shallow embedding of `tfx/components/base/function_parser.py` (flyteorg/tfx).

The source module turns a typehint-annotated Python function into a parsed
contract: an `inputs` map, an `outputs` map and an ordered `arg_formats`
list.  Python dictionaries become association lists (`List (String × _)`)
whose insert overwrites an existing key in place, matching dict update
semantics; Python `isinstance` dispatch over the closed set of marker
classes becomes a match over the inductive `TypeHint`; a raised
`ValueError` becomes `Except.error` carrying a `ParseError` value from
which the exact message string is rebuilt by `message`.  A host-level
exception that is not one of the module's own `ValueError`s (`KeyError`
from `typehints[arg]`, `TypeError` on an unhashable nested argument,
`AttributeError` on `.kwargs`) is modelled by the distinguished
`ParseError.hostError`.
-/

/-- The five calling-convention tags of `ArgFormats` (source lines 34-39). -/
inductive ArgFormats where
  | INPUT_ARTIFACT
  | INPUT_ARTIFACT_URI
  | OUTPUT_ARTIFACT
  | OUTPUT_ARTIFACT_URI
  | ARTIFACT_VALUE
  deriving DecidableEq, Repr

/-- The four primitive scalar Python types usable as value hints:
`int`, `float`, `bytes`, `Text` (keys of `_PRIMITIVE_TO_ARTIFACT`). -/
inductive Primitive where
  | int
  | float
  | bytes
  | text
  deriving DecidableEq, Repr

/-- Artifact types: the four standard value-artifact classes plus arbitrary
user subclasses of `tfx.types.Artifact`, identified by name. -/
inductive ArtifactTy where
  | IntegerType
  | FloatType
  | BytesType
  | StringType
  | custom (name : String)
  deriving DecidableEq, Repr

/-- `_PRIMITIVE_TO_ARTIFACT` (source lines 42-47). -/
def primitiveToArtifact : Primitive → ArtifactTy
  | .int => .IntegerType
  | .float => .FloatType
  | .bytes => .BytesType
  | .text => .StringType

/-- A resolved Python type hint, as classified by the source's `isinstance`
dispatch: the four parameter marker instances, a primitive scalar type, a
bare subclass of `tfx.types.Artifact`, a `ComponentOutput` instance with
its `kwargs` field mapping, or any other value (`otherHint`). -/
inductive TypeHint where
  | inputArtifact (t : ArtifactTy)
  | inputArtifactUri (t : ArtifactTy)
  | outputArtifact (t : ArtifactTy)
  | outputArtifactUri (t : ArtifactTy)
  | prim (p : Primitive)
  | bareArtifact (t : ArtifactTy)
  | componentOutput (kwargs : List (String × TypeHint))
  | otherHint (descr : String)

/-- One entry of `FullArgSpec.args`.  In Python 3 each entry is a plain
name; `nested` models the Python 2 destructured-tuple parameters that
`_validate_signature` still guards against (`isinstance(arg, list)`). -/
inductive Arg where
  | simple (name : String)
  | nested (group : List String)
  deriving DecidableEq, Repr

/-- The fields of `inspect.getfullargspec` the source reads.  `defaults`
is `None` or a non-empty tuple in CPython; a list of placeholders keeps
exactly the truthiness the source tests with `if defaults:`. -/
structure FullArgSpec where
  args : List Arg
  varargs : Option String
  varkw : Option String
  defaults : List Unit

/-- A candidate value handed to the entry point.  `isFunction` models
`isinstance(func, types.FunctionType)`; `name` is the `__name__` used in
the value's repr; `argspec` and `typehints` model what
`inspect.getfullargspec` and `typing.get_type_hints` would extract. -/
structure Candidate where
  isFunction : Bool
  name : String
  argspec : FullArgSpec
  typehints : List (String × TypeHint)

/-- Python `repr` of the candidate.  CPython prints a per-object address
after the name; the model fixes it, since a value is identified with its
description here.  Both branches embed the name. -/
def pyRepr (f : Candidate) : String :=
  if f.isFunction then "<function " ++ f.name ++ " at 0x7f1de35c2950>"
  else "<" ++ f.name ++ ">"

/-- Error raised by the module, one constructor per distinct raise site,
carrying exactly the data the site interpolates into its message. -/
inductive ParseError where
  | missingOutputContract (subject : String)
  | unsupportedVariadicParams (subject : String)
  | unsupportedDefaultValue (subject : String)
  | unsupportedNestedParam (subject : String)
  | missingArgHint (subject : String)
  | unknownInputHint (arg : String) (funcRepr : String)
  | misplacedOutputArtifact (funcRepr : String)
  | unknownOutputHint (arg : String) (funcRepr : String)
  | notAFunction (funcRepr : String)
  | hostError
  deriving DecidableEq, Repr

/-- The exact message each raise site formats (`%r` of a string argument
adds quotes; `%r` of the function is its repr, passed in pre-formed). -/
def message : ParseError → String
  | .missingOutputContract s =>
      s ++ " must have a ComponentOutput instance as its return value typehint."
  | .unsupportedVariadicParams s =>
      s ++ " does not support *args or **kwargs arguments."
  | .unsupportedDefaultValue s =>
      s ++ " currently does not support optional arguments / default values."
  | .unsupportedNestedParam s =>
      s ++ " does not support nested input arguments."
  | .missingArgHint s =>
      s ++ " must have all arguments annotated with typehints."
  | .unknownInputHint a fr =>
      "Unknown type hint annotation for argument '" ++ a ++ ("' on function " ++ fr)
  | .misplacedOutputArtifact fr =>
      "Output artifacts for the component executor function " ++ fr ++
      (" should be declared as function parameters annotated with type hint " ++
       "`tfx.types.annotations.OutputArtifact[T]` or " ++
       "`tfx.types.annotations.OutputArtifactUri[T]` where T is a subclass of " ++
       "`tfx.types.Artifact`. They should not be declared as part of the " ++
       "return value `ComponentOutput` type hint.")
  | .unknownOutputHint a fr =>
      "Unknown type hint annotation for output '" ++ a ++ ("' on function " ++ fr)
  | .notAFunction fr =>
      "Expected a typehint-annotated Python function (got " ++ fr ++ " instead)."
  | .hostError => "internal host error"

/-- First-match association-list lookup, the model of `d[k]` / `k in d`. -/
def dlookup {α : Type} : List (String × α) → String → Option α
  | [], _ => none
  | (k, v) :: rest, n => if k = n then some v else dlookup rest n

/-- Dict update `d[k] = v`: overwrite in place if the key is present
(dict keys are unique, so replacing the first occurrence is exact),
append at the end otherwise, preserving insertion order. -/
def dinsert {α : Type} : List (String × α) → String → α → List (String × α)
  | [], k, v => [(k, v)]
  | (k', v') :: rest, k, v =>
      if k' = k then (k, v) :: rest else (k', v') :: dinsert rest k v

/-- The key list of an association list. -/
def keys {α : Type} (m : List (String × α)) : List String :=
  m.map Prod.fst

/-- Names of the plain (non-nested) arguments, in order. -/
def simpleNames : List Arg → List String
  | [] => []
  | .simple n :: rest => n :: simpleNames rest
  | .nested _ :: rest => simpleNames rest

/-- Truthiness of the optional `varargs` / `varkw` name. -/
def truthyOpt : Option String → Bool
  | none => false
  | some s => !s.isEmpty

/-- The return-hint test of source line 58: `'return' in typehints and
isinstance(typehints['return'], annotations.ComponentOutput)`. -/
def goodReturn (typehints : List (String × TypeHint)) : Bool :=
  match dlookup typehints "return" with
  | some (.componentOutput _) => true
  | _ => false

/-- The variadic test of source line 63: `varargs or keywords`. -/
def variadicPresent (argspec : FullArgSpec) : Bool :=
  truthyOpt argspec.varargs || truthyOpt argspec.varkw

/-- The per-argument loop of `_validate_signature` (source lines 71-79):
a nested argument or an argument missing from `typehints` raises, in
declaration order. -/
def validateArgs (typehints : List (String × TypeHint)) (subject : String) :
    List Arg → Except ParseError Unit
  | [] => .ok ()
  | .nested _ :: _ => .error (.unsupportedNestedParam subject)
  | .simple n :: rest =>
      if (dlookup typehints n).isSome then validateArgs typehints subject rest
      else .error (.missingArgHint subject)

/-- `_validate_signature` (source lines 50-79). -/
def validate_signature (argspec : FullArgSpec)
    (typehints : List (String × TypeHint)) (subject : String) :
    Except ParseError Unit :=
  if goodReturn typehints = false then
    .error (.missingOutputContract subject)
  else if variadicPresent argspec then
    .error (.unsupportedVariadicParams subject)
  else if !argspec.defaults.isEmpty then
    .error (.unsupportedDefaultValue subject)
  else validateArgs typehints subject argspec.args

/-- The per-argument loop of `_parse_signature` (source lines 112-132),
threading the `inputs`, `outputs` and `arg_formats` accumulators.  A
nested argument is unhashable (`TypeError`) and a missing key raises
`KeyError`; both are `hostError` in the model. -/
def parseArgLoop (funcRepr : String) (typehints : List (String × TypeHint)) :
    List Arg → List (String × ArtifactTy) → List (String × ArtifactTy) →
    List (ArgFormats × String) →
    Except ParseError
      (List (String × ArtifactTy) × List (String × ArtifactTy) ×
       List (ArgFormats × String))
  | [], ins, outs, fmts => .ok (ins, outs, fmts)
  | .nested _ :: _, _, _, _ => .error .hostError
  | .simple a :: rest, ins, outs, fmts =>
    match dlookup typehints a with
    | none => .error .hostError
    | some (.inputArtifact t) =>
        parseArgLoop funcRepr typehints rest (dinsert ins a t) outs
          (fmts ++ [(.INPUT_ARTIFACT, a)])
    | some (.inputArtifactUri t) =>
        parseArgLoop funcRepr typehints rest (dinsert ins a t) outs
          (fmts ++ [(.INPUT_ARTIFACT_URI, a)])
    | some (.outputArtifact t) =>
        parseArgLoop funcRepr typehints rest ins (dinsert outs a t)
          (fmts ++ [(.OUTPUT_ARTIFACT, a)])
    | some (.outputArtifactUri t) =>
        parseArgLoop funcRepr typehints rest ins (dinsert outs a t)
          (fmts ++ [(.OUTPUT_ARTIFACT_URI, a)])
    | some (.prim p) =>
        parseArgLoop funcRepr typehints rest
          (dinsert ins a (primitiveToArtifact p)) outs
          (fmts ++ [(.ARTIFACT_VALUE, a)])
    | some _ => .error (.unknownInputHint a funcRepr)

/-- The return-field loop of `_parse_signature` (source lines 134-151):
an `OutputArtifact`/`OutputArtifactUri` instance or a bare `Artifact`
subclass raises the misplaced-output error, a primitive scalar is
recorded into `outputs`, anything else raises the unknown-output error. -/
def parseReturnLoop (funcRepr : String) :
    List (String × TypeHint) → List (String × ArtifactTy) →
    Except ParseError (List (String × ArtifactTy))
  | [], outs => .ok outs
  | (a, h) :: rest, outs =>
    match h with
    | .outputArtifact _ => .error (.misplacedOutputArtifact funcRepr)
    | .outputArtifactUri _ => .error (.misplacedOutputArtifact funcRepr)
    | .bareArtifact _ => .error (.misplacedOutputArtifact funcRepr)
    | .prim p =>
        parseReturnLoop funcRepr rest (dinsert outs a (primitiveToArtifact p))
    | _ => .error (.unknownOutputHint a funcRepr)

/-- The parsed contract returned by `_parse_signature`. -/
structure ParsedContract where
  inputs : List (String × ArtifactTy)
  outputs : List (String × ArtifactTy)
  arg_formats : List (ArgFormats × String)
  deriving DecidableEq, Repr

/-- `_parse_signature` (source lines 82-153): run the argument loop from
empty accumulators, then fold the fields of `typehints['return'].kwargs`
into `outputs`.  When the return hint is absent or not a
`ComponentOutput`, the attribute access is a host-level failure. -/
def parse_signature (func : Candidate) (argspec : FullArgSpec)
    (typehints : List (String × TypeHint)) : Except ParseError ParsedContract :=
  match parseArgLoop (pyRepr func) typehints argspec.args [] [] [] with
  | .error e => .error e
  | .ok (ins, outs, fmts) =>
    match dlookup typehints "return" with
    | some (.componentOutput kwargs) =>
      match parseReturnLoop (pyRepr func) kwargs outs with
      | .error e => .error e
      | .ok outs2 => .ok ⟨ins, outs2, fmts⟩
    | _ => .error .hostError

/-- The constant `subject_message` of source line 182. -/
def subjectMessage : String :=
  "Component declared as a typehint-annotated function"

/-- `parse_typehint_component_function` (source lines 156-187): reject a
non-function, then validate, then lower. -/
def parse_typehint_component_function (func : Candidate) :
    Except ParseError ParsedContract :=
  if func.isFunction = false then .error (.notAFunction (pyRepr func))
  else
    match validate_signature func.argspec func.typehints subjectMessage with
    | .error e => .error e
    | .ok _ => parse_signature func func.argspec func.typehints


/-- Argument format assigned to a recognized parameter hint, `none` when
the hint is rejected by the argument loop. -/
def fmtOf : TypeHint → Option ArgFormats
  | .inputArtifact _ => some .INPUT_ARTIFACT
  | .inputArtifactUri _ => some .INPUT_ARTIFACT_URI
  | .outputArtifact _ => some .OUTPUT_ARTIFACT
  | .outputArtifactUri _ => some .OUTPUT_ARTIFACT_URI
  | .prim _ => some .ARTIFACT_VALUE
  | _ => none

/-- Hints whose parameter is recorded into `inputs`. -/
def isInputHint : Option TypeHint → Bool
  | some (.inputArtifact _) => true
  | some (.inputArtifactUri _) => true
  | some (.prim _) => true
  | _ => false

/-- Hints whose parameter is recorded into `outputs`. -/
def isOutputHint : Option TypeHint → Bool
  | some (.outputArtifact _) => true
  | some (.outputArtifactUri _) => true
  | _ => false

/-- Names of the arguments the argument loop classifies as inputs. -/
def inNames (typehints : List (String × TypeHint)) : List Arg → List String
  | [] => []
  | .simple n :: rest =>
      if isInputHint (dlookup typehints n) then n :: inNames typehints rest
      else inNames typehints rest
  | .nested _ :: rest => inNames typehints rest

/-- Names of the arguments the argument loop classifies as outputs. -/
def outNames (typehints : List (String × TypeHint)) : List Arg → List String
  | [] => []
  | .simple n :: rest =>
      if isOutputHint (dlookup typehints n) then n :: outNames typehints rest
      else outNames typehints rest
  | .nested _ :: rest => outNames typehints rest

/-- A primitive scalar hint. -/
def isPrimHintB : TypeHint → Bool
  | .prim _ => true
  | _ => false

/-- A hint caught by the misplaced-output check of source lines 135-138. -/
def isArtifactHintB : TypeHint → Bool
  | .outputArtifact _ => true
  | .outputArtifactUri _ => true
  | .bareArtifact _ => true
  | _ => false

/-- `n` names a primitive-typed field of the return hint's `kwargs`. -/
def retPrimName (typehints : List (String × TypeHint)) (n : String) : Bool :=
  match dlookup typehints "return" with
  | some (.componentOutput kwargs) =>
      kwargs.any (fun q => if q.1 = n then isPrimHintB q.2 else false)
  | _ => false

/-- All arguments are plain names carrying a resolved hint. -/
def argsOk (typehints : List (String × TypeHint)) : List Arg → Bool
  | [] => true
  | .simple n :: rest => (dlookup typehints n).isSome && argsOk typehints rest
  | .nested _ :: _ => false

/-- The three deliberate `ValueError`s of `_parse_signature`. -/
def isSemanticLoweringError : ParseError → Bool
  | .unknownInputHint _ _ => true
  | .misplacedOutputArtifact _ => true
  | .unknownOutputHint _ _ => true
  | _ => false

/-- What the argument loop records for argument `n` carrying hint `h`. -/
def argClassified (ins outs : List (String × ArtifactTy))
    (fmts : List (ArgFormats × String)) (n : String) : TypeHint → Prop
  | .inputArtifact t =>
      dlookup ins n = some t ∧ (ArgFormats.INPUT_ARTIFACT, n) ∈ fmts
  | .inputArtifactUri t =>
      dlookup ins n = some t ∧ (ArgFormats.INPUT_ARTIFACT_URI, n) ∈ fmts
  | .outputArtifact t =>
      dlookup outs n = some t ∧ (ArgFormats.OUTPUT_ARTIFACT, n) ∈ fmts
  | .outputArtifactUri t =>
      dlookup outs n = some t ∧ (ArgFormats.OUTPUT_ARTIFACT_URI, n) ∈ fmts
  | .prim p =>
      dlookup ins n = some (primitiveToArtifact p) ∧
      (ArgFormats.ARTIFACT_VALUE, n) ∈ fmts
  | _ => False

/-- `needle` is a prefix of `hay` (character lists). -/
def charsPrefix : List Char → List Char → Bool
  | [], _ => true
  | _ :: _, [] => false
  | a :: as, b :: bs => if a = b then charsPrefix as bs else false

/-- `needle` occurs contiguously somewhere in `hay` (character lists). -/
def charsContains : List Char → List Char → Bool
  | [], needle => needle.isEmpty
  | c :: rest, needle => charsPrefix needle (c :: rest) || charsContains rest needle

/-- Substring occurrence on strings, the sense in which an error message
names a declaration or a parameter. -/
def strContains (hay needle : String) : Bool :=
  charsContains hay.data needle.data


/-- Per-error naming facts: the entry-point and lowering errors embed the
candidate's repr (hence its name) in their message, the two unknown-hint
errors also embed the offending parameter or field name, and every
validation error carries only the fixed `subjectMessage` phrase. -/
def C8post (f : Candidate) : ParseError → Prop
  | .missingOutputContract s => s = subjectMessage
  | .unsupportedVariadicParams s => s = subjectMessage
  | .unsupportedDefaultValue s => s = subjectMessage
  | .unsupportedNestedParam s => s = subjectMessage
  | .missingArgHint s => s = subjectMessage
  | .unknownInputHint a fr =>
      fr = pyRepr f ∧
      strContains (message (.unknownInputHint a fr)) f.name = true ∧
      strContains (message (.unknownInputHint a fr)) a = true
  | .misplacedOutputArtifact fr =>
      fr = pyRepr f ∧
      strContains (message (.misplacedOutputArtifact fr)) f.name = true
  | .unknownOutputHint a fr =>
      fr = pyRepr f ∧
      strContains (message (.unknownOutputHint a fr)) f.name = true ∧
      strContains (message (.unknownOutputHint a fr)) a = true
  | .notAFunction fr =>
      fr = pyRepr f ∧
      strContains (message (.notAFunction fr)) f.name = true
  | .hostError => False

/-- A well-formed example: one input artifact, one primitive input, one
output artifact, one primitive return field. -/
def exGood : Candidate :=
  { isFunction := true
    name := "my_fn"
    argspec := { args := [.simple "model", .simple "threshold", .simple "blessing"]
                 varargs := none, varkw := none, defaults := [] }
    typehints :=
      [("model", .inputArtifact (.custom "Model")),
       ("threshold", .prim .float),
       ("blessing", .outputArtifact (.custom "InfraBlessing")),
       ("return", .componentOutput [("accuracy", .prim .float)])] }

/-- A primitive input parameter `x: float` whose name collides with a
primitive return field `x: int`. -/
def exCollide : Candidate :=
  { isFunction := true
    name := "collide_fn"
    argspec := { args := [.simple "x"]
                 varargs := none, varkw := none, defaults := [] }
    typehints :=
      [("x", .prim .float),
       ("return", .componentOutput [("x", .prim .int)])] }

/-- An `OutputArtifact` parameter `blessing` shadowed by a primitive
return field of the same name. -/
def exShadow : Candidate :=
  { isFunction := true
    name := "shadow_fn"
    argspec := { args := [.simple "blessing"]
                 varargs := none, varkw := none, defaults := [] }
    typehints :=
      [("blessing", .outputArtifact (.custom "InfraBlessing")),
       ("return", .componentOutput [("blessing", .prim .int)])] }

/-- A declaration with a nested (destructured) parameter. -/
def exNestedArg : Candidate :=
  { isFunction := true
    name := "zq_model_checker"
    argspec := { args := [.nested ["a", "b"]]
                 varargs := none, varkw := none, defaults := [] }
    typehints := [("return", .componentOutput [])] }

/-- A declaration whose parameter hint is recognized by neither branch of
the argument loop. -/
def exBadHint : Candidate :=
  { isFunction := true
    name := "wit_fn"
    argspec := { args := [.simple "x"]
                 varargs := none, varkw := none, defaults := [] }
    typehints :=
      [("x", .otherHint "dict"),
       ("return", .componentOutput [])] }

/-- A candidate that is not a plain function (for example a class). -/
def exNotFn : Candidate :=
  { isFunction := false
    name := "SomeCallableClass"
    argspec := { args := [], varargs := none, varkw := none, defaults := [] }
    typehints := [] }

/-- The contract the parser produces for `exGood`. -/
def exGoodContract : ParsedContract :=
  { inputs := [("model", .custom "Model"), ("threshold", .FloatType)]
    outputs := [("blessing", .custom "InfraBlessing"), ("accuracy", .FloatType)]
    arg_formats := [(.INPUT_ARTIFACT, "model"), (.ARTIFACT_VALUE, "threshold"),
                    (.OUTPUT_ARTIFACT, "blessing")] }

/-- The contract the parser produces for `exCollide`. -/
def exCollideContract : ParsedContract :=
  { inputs := [("x", .FloatType)]
    outputs := [("x", .IntegerType)]
    arg_formats := [(.ARTIFACT_VALUE, "x")] }

/-- The contract the parser produces for `exShadow`. -/
def exShadowContract : ParsedContract :=
  { inputs := []
    outputs := [("blessing", .IntegerType)]
    arg_formats := [(.OUTPUT_ARTIFACT, "blessing")] }

/-- An `OutputArtifactUri` parameter `blessing` shadowed by a primitive
return field of the same name. -/
def exShadowUri : Candidate :=
  { isFunction := true
    name := "shadow_uri_fn"
    argspec := { args := [.simple "blessing"]
                 varargs := none, varkw := none, defaults := [] }
    typehints :=
      [("blessing", .outputArtifactUri (.custom "InfraBlessing")),
       ("return", .componentOutput [("blessing", .prim .int)])] }

/-- The contract the parser produces for `exShadowUri`. -/
def exShadowUriContract : ParsedContract :=
  { inputs := []
    outputs := [("blessing", .IntegerType)]
    arg_formats := [(.OUTPUT_ARTIFACT_URI, "blessing")] }

theorem dlookup_dinsert_self {α : Type} (m : List (String × α)) (k : String)
    (v : α) : dlookup (dinsert m k v) k = some v := by
  induction m with
  | nil => simp [dinsert, dlookup]
  | cons p rest ih =>
    obtain ⟨k', v'⟩ := p
    by_cases h : k' = k
    · simp [dinsert, h, dlookup]
    · simp [dinsert, h, dlookup, ih]

theorem dlookup_dinsert_ne {α : Type} (m : List (String × α)) (k n : String)
    (v : α) (hne : k ≠ n) : dlookup (dinsert m k v) n = dlookup m n := by
  have hne' : ¬(n = k) := fun h => hne h.symm
  induction m with
  | nil => simp [dinsert, dlookup, hne]
  | cons p rest ih =>
    obtain ⟨k', v'⟩ := p
    by_cases h : k' = k
    · subst h
      simp [dinsert, dlookup, hne, hne']
    · by_cases h2 : k' = n
      · simp [dinsert, h, dlookup, h2, hne']
      · simp [dinsert, h, dlookup, h2, ih]

theorem mem_keys_dinsert {α : Type} (m : List (String × α)) (k n : String)
    (v : α) : n ∈ keys (dinsert m k v) ↔ n = k ∨ n ∈ keys m := by
  induction m with
  | nil => simp [dinsert, keys]
  | cons p rest ih =>
    obtain ⟨k', v'⟩ := p
    by_cases h : k' = k
    · subst h
      simp [dinsert, keys]
    · simp [dinsert, h, keys] at ih ⊢
      tauto

theorem mem_keys_exists {α : Type} (m : List (String × α)) (n : String)
    (h : n ∈ keys m) : ∃ v, (n, v) ∈ m := by
  unfold keys at h
  obtain ⟨p, hmem, hk⟩ := List.mem_map.mp h
  obtain ⟨k, v⟩ := p
  simp at hk
  subst hk
  exact ⟨v, hmem⟩

theorem validateArgs_ok_iff (typehints : List (String × TypeHint))
    (subject : String) (args : List Arg) :
    validateArgs typehints subject args = .ok () ↔
      argsOk typehints args = true := by
  induction args with
  | nil => simp [validateArgs, argsOk]
  | cons a rest ih =>
    cases a with
    | simple n =>
      by_cases h : (dlookup typehints n).isSome
      · simp [validateArgs, argsOk, h, ih]
      · simp [validateArgs, argsOk, h]
    | nested g => simp [validateArgs, argsOk]

theorem validate_ok_iff (argspec : FullArgSpec)
    (typehints : List (String × TypeHint)) (subject : String) :
    validate_signature argspec typehints subject = .ok () ↔
      (goodReturn typehints = true ∧ variadicPresent argspec = false ∧
       argspec.defaults = [] ∧ argsOk typehints argspec.args = true) := by
  unfold validate_signature
  cases hg : goodReturn typehints with
  | false => simp [hg]
  | true =>
    simp only [hg]
    cases hv : variadicPresent argspec with
    | true => simp [hv]
    | false =>
      simp only [hv]
      cases hd : argspec.defaults with
      | nil => simp [validateArgs_ok_iff, hd]
      | cons x xs => simp [hd]

theorem argsOk_mem (typehints : List (String × TypeHint)) (args : List Arg)
    (h : argsOk typehints args = true) :
    ∀ a ∈ args, ∃ n, a = Arg.simple n ∧ (dlookup typehints n).isSome := by
  induction args with
  | nil => intro a ha; cases ha
  | cons b rest ih =>
    cases b with
    | simple n =>
      simp [argsOk] at h
      intro a ha
      cases ha with
      | head => exact ⟨n, rfl, by simp [h.1]⟩
      | tail _ ht => exact ih h.2 a ht
    | nested g => simp [argsOk] at h

theorem parseArgLoop_nil (fr : String) (th : List (String × TypeHint))
    (ins outs : List (String × ArtifactTy)) (fmts : List (ArgFormats × String)) :
    parseArgLoop fr th [] ins outs fmts = .ok (ins, outs, fmts) := rfl

theorem parseArgLoop_nested (fr : String) (th : List (String × TypeHint))
    (g : List String) (rest : List Arg) (ins outs : List (String × ArtifactTy))
    (fmts : List (ArgFormats × String)) :
    parseArgLoop fr th (.nested g :: rest) ins outs fmts = .error .hostError := rfl

theorem parseArgLoop_simple (fr : String) (th : List (String × TypeHint))
    (n : String) (rest : List Arg) (ins outs : List (String × ArtifactTy))
    (fmts : List (ArgFormats × String)) :
    parseArgLoop fr th (.simple n :: rest) ins outs fmts =
      match dlookup th n with
      | none => .error .hostError
      | some (.inputArtifact t) =>
          parseArgLoop fr th rest (dinsert ins n t) outs
            (fmts ++ [(.INPUT_ARTIFACT, n)])
      | some (.inputArtifactUri t) =>
          parseArgLoop fr th rest (dinsert ins n t) outs
            (fmts ++ [(.INPUT_ARTIFACT_URI, n)])
      | some (.outputArtifact t) =>
          parseArgLoop fr th rest ins (dinsert outs n t)
            (fmts ++ [(.OUTPUT_ARTIFACT, n)])
      | some (.outputArtifactUri t) =>
          parseArgLoop fr th rest ins (dinsert outs n t)
            (fmts ++ [(.OUTPUT_ARTIFACT_URI, n)])
      | some (.prim p) =>
          parseArgLoop fr th rest (dinsert ins n (primitiveToArtifact p)) outs
            (fmts ++ [(.ARTIFACT_VALUE, n)])
      | some _ => .error (.unknownInputHint n fr) := rfl

theorem argLoop_fmts_mono (fr : String) (th : List (String × TypeHint)) :
    ∀ (args : List Arg) (ins outs ins' outs' : List (String × ArtifactTy))
      (fmts fmts' : List (ArgFormats × String)),
      parseArgLoop fr th args ins outs fmts = .ok (ins', outs', fmts') →
      ∀ x ∈ fmts, x ∈ fmts' := by
  intro args
  induction args with
  | nil =>
    intro ins outs ins' outs' fmts fmts' h x hx
    rw [parseArgLoop_nil] at h
    simp at h
    obtain ⟨-, -, rfl⟩ := h
    exact hx
  | cons a rest ih =>
    intro ins outs ins' outs' fmts fmts' h x hx
    cases a with
    | nested g => rw [parseArgLoop_nested] at h; exact absurd h (by simp)
    | simple n =>
      rw [parseArgLoop_simple] at h
      cases hh : dlookup th n with
      | none => rw [hh] at h; exact absurd h (by simp)
      | some hint =>
        rw [hh] at h
        cases hint with
        | inputArtifact t =>
          exact ih _ _ _ _ _ _ h x (List.mem_append_left _ hx)
        | inputArtifactUri t =>
          exact ih _ _ _ _ _ _ h x (List.mem_append_left _ hx)
        | outputArtifact t =>
          exact ih _ _ _ _ _ _ h x (List.mem_append_left _ hx)
        | outputArtifactUri t =>
          exact ih _ _ _ _ _ _ h x (List.mem_append_left _ hx)
        | prim p =>
          exact ih _ _ _ _ _ _ h x (List.mem_append_left _ hx)
        | bareArtifact t => exact absurd h (by simp)
        | componentOutput kw => exact absurd h (by simp)
        | otherHint d => exact absurd h (by simp)

theorem argLoop_preserve_lookup (fr : String) (th : List (String × TypeHint))
    (n : String) :
    ∀ (args : List Arg) (ins outs ins' outs' : List (String × ArtifactTy))
      (fmts fmts' : List (ArgFormats × String)),
      n ∉ simpleNames args →
      parseArgLoop fr th args ins outs fmts = .ok (ins', outs', fmts') →
      dlookup ins' n = dlookup ins n ∧ dlookup outs' n = dlookup outs n := by
  intro args
  induction args with
  | nil =>
    intro ins outs ins' outs' fmts fmts' _ h
    rw [parseArgLoop_nil] at h
    simp at h
    obtain ⟨rfl, rfl, -⟩ := h
    exact ⟨rfl, rfl⟩
  | cons a rest ih =>
    intro ins outs ins' outs' fmts fmts' hn h
    cases a with
    | nested g => rw [parseArgLoop_nested] at h; exact absurd h (by simp)
    | simple a0 =>
      have hne : a0 ≠ n := by
        intro hEq
        exact hn (by simp [simpleNames, hEq])
      have hn' : n ∉ simpleNames rest := by
        intro hmem
        exact hn (by simp [simpleNames, hmem])
      rw [parseArgLoop_simple] at h
      cases hh : dlookup th a0 with
      | none => rw [hh] at h; exact absurd h (by simp)
      | some hint =>
        rw [hh] at h
        cases hint with
        | inputArtifact t =>
          have := ih _ _ _ _ _ _ hn' h
          exact ⟨by rw [this.1, dlookup_dinsert_ne _ _ _ _ hne], this.2⟩
        | inputArtifactUri t =>
          have := ih _ _ _ _ _ _ hn' h
          exact ⟨by rw [this.1, dlookup_dinsert_ne _ _ _ _ hne], this.2⟩
        | outputArtifact t =>
          have := ih _ _ _ _ _ _ hn' h
          exact ⟨this.1, by rw [this.2, dlookup_dinsert_ne _ _ _ _ hne]⟩
        | outputArtifactUri t =>
          have := ih _ _ _ _ _ _ hn' h
          exact ⟨this.1, by rw [this.2, dlookup_dinsert_ne _ _ _ _ hne]⟩
        | prim p =>
          have := ih _ _ _ _ _ _ hn' h
          exact ⟨by rw [this.1, dlookup_dinsert_ne _ _ _ _ hne], this.2⟩
        | bareArtifact t => exact absurd h (by simp)
        | componentOutput kw => exact absurd h (by simp)
        | otherHint d => exact absurd h (by simp)

theorem argLoop_names (fr : String) (th : List (String × TypeHint)) :
    ∀ (args : List Arg) (ins outs ins' outs' : List (String × ArtifactTy))
      (fmts fmts' : List (ArgFormats × String)),
      parseArgLoop fr th args ins outs fmts = .ok (ins', outs', fmts') →
      fmts'.map Prod.snd = fmts.map Prod.snd ++ simpleNames args := by
  intro args
  induction args with
  | nil =>
    intro ins outs ins' outs' fmts fmts' h
    rw [parseArgLoop_nil] at h
    simp at h
    obtain ⟨-, -, rfl⟩ := h
    simp [simpleNames]
  | cons a rest ih =>
    intro ins outs ins' outs' fmts fmts' h
    cases a with
    | nested g => rw [parseArgLoop_nested] at h; exact absurd h (by simp)
    | simple n =>
      rw [parseArgLoop_simple] at h
      cases hh : dlookup th n with
      | none => rw [hh] at h; exact absurd h (by simp)
      | some hint =>
        rw [hh] at h
        cases hint with
        | inputArtifact t => rw [ih _ _ _ _ _ _ h]; simp [simpleNames]
        | inputArtifactUri t => rw [ih _ _ _ _ _ _ h]; simp [simpleNames]
        | outputArtifact t => rw [ih _ _ _ _ _ _ h]; simp [simpleNames]
        | outputArtifactUri t => rw [ih _ _ _ _ _ _ h]; simp [simpleNames]
        | prim p => rw [ih _ _ _ _ _ _ h]; simp [simpleNames]
        | bareArtifact t => exact absurd h (by simp)
        | componentOutput kw => exact absurd h (by simp)
        | otherHint d => exact absurd h (by simp)

theorem argLoop_length (fr : String) (th : List (String × TypeHint)) :
    ∀ (args : List Arg) (ins outs ins' outs' : List (String × ArtifactTy))
      (fmts fmts' : List (ArgFormats × String)),
      parseArgLoop fr th args ins outs fmts = .ok (ins', outs', fmts') →
      fmts'.length = fmts.length + args.length := by
  intro args
  induction args with
  | nil =>
    intro ins outs ins' outs' fmts fmts' h
    rw [parseArgLoop_nil] at h
    simp at h
    obtain ⟨-, -, rfl⟩ := h
    simp
  | cons a rest ih =>
    intro ins outs ins' outs' fmts fmts' h
    cases a with
    | nested g => rw [parseArgLoop_nested] at h; exact absurd h (by simp)
    | simple n =>
      rw [parseArgLoop_simple] at h
      cases hh : dlookup th n with
      | none => rw [hh] at h; exact absurd h (by simp)
      | some hint =>
        rw [hh] at h
        cases hint with
        | inputArtifact t => rw [ih _ _ _ _ _ _ h]; simp; omega
        | inputArtifactUri t => rw [ih _ _ _ _ _ _ h]; simp; omega
        | outputArtifact t => rw [ih _ _ _ _ _ _ h]; simp; omega
        | outputArtifactUri t => rw [ih _ _ _ _ _ _ h]; simp; omega
        | prim p => rw [ih _ _ _ _ _ _ h]; simp; omega
        | bareArtifact t => exact absurd h (by simp)
        | componentOutput kw => exact absurd h (by simp)
        | otherHint d => exact absurd h (by simp)

theorem mem_inNames_isInput (th : List (String × TypeHint)) :
    ∀ (args : List Arg) (n : String), n ∈ inNames th args →
      isInputHint (dlookup th n) = true := by
  intro args
  induction args with
  | nil => intro n hn; simp [inNames] at hn
  | cons a rest ih =>
    intro n hn
    cases a with
    | nested g => exact ih n hn
    | simple a0 =>
      by_cases hc : isInputHint (dlookup th a0)
      · rw [inNames, if_pos hc] at hn
        cases List.mem_cons.mp hn with
        | inl hEq => rw [hEq]; exact hc
        | inr hmem => exact ih n hmem
      · rw [inNames, if_neg hc] at hn
        exact ih n hn

theorem mem_outNames_isOutput (th : List (String × TypeHint)) :
    ∀ (args : List Arg) (n : String), n ∈ outNames th args →
      isOutputHint (dlookup th n) = true := by
  intro args
  induction args with
  | nil => intro n hn; simp [outNames] at hn
  | cons a rest ih =>
    intro n hn
    cases a with
    | nested g => exact ih n hn
    | simple a0 =>
      by_cases hc : isOutputHint (dlookup th a0)
      · rw [outNames, if_pos hc] at hn
        cases List.mem_cons.mp hn with
        | inl hEq => rw [hEq]; exact hc
        | inr hmem => exact ih n hmem
      · rw [outNames, if_neg hc] at hn
        exact ih n hn

theorem isInput_not_isOutput (o : Option TypeHint)
    (h : isInputHint o = true) : isOutputHint o = false := by
  cases o with
  | none => simp [isInputHint] at h
  | some t => cases t <;> simp_all [isInputHint, isOutputHint]

theorem argLoop_mem_keys (fr : String) (th : List (String × TypeHint)) :
    ∀ (args : List Arg) (ins outs ins' outs' : List (String × ArtifactTy))
      (fmts fmts' : List (ArgFormats × String)),
      parseArgLoop fr th args ins outs fmts = .ok (ins', outs', fmts') →
      ∀ n, (n ∈ keys ins' ↔ (n ∈ keys ins ∨ n ∈ inNames th args)) ∧
           (n ∈ keys outs' ↔ (n ∈ keys outs ∨ n ∈ outNames th args)) := by
  intro args
  induction args with
  | nil =>
    intro ins outs ins' outs' fmts fmts' h n
    rw [parseArgLoop_nil] at h
    simp at h
    obtain ⟨rfl, rfl, -⟩ := h
    simp [inNames, outNames]
  | cons a rest ih =>
    intro ins outs ins' outs' fmts fmts' h n
    cases a with
    | nested g => rw [parseArgLoop_nested] at h; exact absurd h (by simp)
    | simple a0 =>
      rw [parseArgLoop_simple] at h
      cases hh : dlookup th a0 with
      | none => rw [hh] at h; exact absurd h (by simp)
      | some hint =>
        rw [hh] at h
        cases hint with
        | inputArtifact t =>
          have IH := ih _ _ _ _ _ _ h n
          constructor
          · rw [IH.1, mem_keys_dinsert]
            simp [inNames, hh, isInputHint]
            tauto
          · rw [IH.2]
            simp [outNames, hh, isOutputHint]
        | inputArtifactUri t =>
          have IH := ih _ _ _ _ _ _ h n
          constructor
          · rw [IH.1, mem_keys_dinsert]
            simp [inNames, hh, isInputHint]
            tauto
          · rw [IH.2]
            simp [outNames, hh, isOutputHint]
        | outputArtifact t =>
          have IH := ih _ _ _ _ _ _ h n
          constructor
          · rw [IH.1]
            simp [inNames, hh, isInputHint]
          · rw [IH.2, mem_keys_dinsert]
            simp [outNames, hh, isOutputHint]
            tauto
        | outputArtifactUri t =>
          have IH := ih _ _ _ _ _ _ h n
          constructor
          · rw [IH.1]
            simp [inNames, hh, isInputHint]
          · rw [IH.2, mem_keys_dinsert]
            simp [outNames, hh, isOutputHint]
            tauto
        | prim p =>
          have IH := ih _ _ _ _ _ _ h n
          constructor
          · rw [IH.1, mem_keys_dinsert]
            simp [inNames, hh, isInputHint]
            tauto
          · rw [IH.2]
            simp [outNames, hh, isOutputHint]
        | bareArtifact t => exact absurd h (by simp)
        | componentOutput kw => exact absurd h (by simp)
        | otherHint d => exact absurd h (by simp)

theorem argLoop_ok_hint (fr : String) (th : List (String × TypeHint)) :
    ∀ (args : List Arg) (ins outs ins' outs' : List (String × ArtifactTy))
      (fmts fmts' : List (ArgFormats × String)),
      parseArgLoop fr th args ins outs fmts = .ok (ins', outs', fmts') →
      ∀ n, Arg.simple n ∈ args →
        isInputHint (dlookup th n) = true ∨ isOutputHint (dlookup th n) = true := by
  intro args
  induction args with
  | nil => intro ins outs ins' outs' fmts fmts' _ n hn; cases hn
  | cons a rest ih =>
    intro ins outs ins' outs' fmts fmts' h n hn
    cases a with
    | nested g => rw [parseArgLoop_nested] at h; exact absurd h (by simp)
    | simple a0 =>
      rw [parseArgLoop_simple] at h
      cases hh : dlookup th a0 with
      | none => rw [hh] at h; exact absurd h (by simp)
      | some hint =>
        rw [hh] at h
        cases List.mem_cons.mp hn with
        | inl hEq =>
          have hna : n = a0 := by injection hEq
          subst hna
          cases hint with
          | inputArtifact t => exact Or.inl (by simp [hh, isInputHint])
          | inputArtifactUri t => exact Or.inl (by simp [hh, isInputHint])
          | outputArtifact t => exact Or.inr (by simp [hh, isOutputHint])
          | outputArtifactUri t => exact Or.inr (by simp [hh, isOutputHint])
          | prim p => exact Or.inl (by simp [hh, isInputHint])
          | bareArtifact t => exact absurd h (by simp)
          | componentOutput kw => exact absurd h (by simp)
          | otherHint d => exact absurd h (by simp)
        | inr hmem =>
          cases hint with
          | inputArtifact t => exact ih _ _ _ _ _ _ h n hmem
          | inputArtifactUri t => exact ih _ _ _ _ _ _ h n hmem
          | outputArtifact t => exact ih _ _ _ _ _ _ h n hmem
          | outputArtifactUri t => exact ih _ _ _ _ _ _ h n hmem
          | prim p => exact ih _ _ _ _ _ _ h n hmem
          | bareArtifact t => exact absurd h (by simp)
          | componentOutput kw => exact absurd h (by simp)
          | otherHint d => exact absurd h (by simp)

theorem argLoop_error_strong (fr : String) (th : List (String × TypeHint)) :
    ∀ (args : List Arg) (ins outs : List (String × ArtifactTy))
      (fmts : List (ArgFormats × String)) (e : ParseError),
      (∀ a ∈ args, ∃ n, a = Arg.simple n ∧ (dlookup th n).isSome) →
      parseArgLoop fr th args ins outs fmts = .error e →
      ∃ n h0, Arg.simple n ∈ args ∧ dlookup th n = some h0 ∧
        fmtOf h0 = none ∧ e = ParseError.unknownInputHint n fr := by
  intro args
  induction args with
  | nil =>
    intro ins outs fmts e _ h
    rw [parseArgLoop_nil] at h
    exact absurd h (by simp)
  | cons a rest ih =>
    intro ins outs fmts e hwf h
    cases a with
    | nested g =>
      obtain ⟨n, hn, -⟩ := hwf _ (List.mem_cons_self _ _)
      exact absurd hn (by simp)
    | simple a0 =>
      rw [parseArgLoop_simple] at h
      cases hh : dlookup th a0 with
      | none =>
        obtain ⟨n, hn, hs⟩ := hwf _ (List.mem_cons_self _ _)
        have : n = a0 := by injection hn.symm
        subst this
        rw [hh] at hs
        exact absurd hs (by simp)
      | some hint =>
        rw [hh] at h
        have hwf' : ∀ a ∈ rest, ∃ n, a = Arg.simple n ∧ (dlookup th n).isSome :=
          fun a ha => hwf a (List.mem_cons_of_mem _ ha)
        cases hint with
        | inputArtifact t =>
          obtain ⟨n, h0, hmem, rest'⟩ := ih _ _ _ _ hwf' h
          exact ⟨n, h0, List.mem_cons_of_mem _ hmem, rest'⟩
        | inputArtifactUri t =>
          obtain ⟨n, h0, hmem, rest'⟩ := ih _ _ _ _ hwf' h
          exact ⟨n, h0, List.mem_cons_of_mem _ hmem, rest'⟩
        | outputArtifact t =>
          obtain ⟨n, h0, hmem, rest'⟩ := ih _ _ _ _ hwf' h
          exact ⟨n, h0, List.mem_cons_of_mem _ hmem, rest'⟩
        | outputArtifactUri t =>
          obtain ⟨n, h0, hmem, rest'⟩ := ih _ _ _ _ hwf' h
          exact ⟨n, h0, List.mem_cons_of_mem _ hmem, rest'⟩
        | prim p =>
          obtain ⟨n, h0, hmem, rest'⟩ := ih _ _ _ _ hwf' h
          exact ⟨n, h0, List.mem_cons_of_mem _ hmem, rest'⟩
        | bareArtifact t =>
          refine ⟨a0, .bareArtifact t, List.mem_cons_self _ _, hh, rfl, ?_⟩
          simp at h
          exact h.symm
        | componentOutput kw =>
          refine ⟨a0, .componentOutput kw, List.mem_cons_self _ _, hh, rfl, ?_⟩
          simp at h
          exact h.symm
        | otherHint d =>
          refine ⟨a0, .otherHint d, List.mem_cons_self _ _, hh, rfl, ?_⟩
          simp at h
          exact h.symm

theorem argLoop_post_gen (fr : String) (th : List (String × TypeHint)) :
    ∀ (args : List Arg) (ins outs ins' outs' : List (String × ArtifactTy))
      (fmts fmts' : List (ArgFormats × String)),
      (simpleNames args).Nodup →
      parseArgLoop fr th args ins outs fmts = .ok (ins', outs', fmts') →
      ∀ n h0, Arg.simple n ∈ args → dlookup th n = some h0 →
        argClassified ins' outs' fmts' n h0 := by
  intro args
  induction args with
  | nil =>
    intro ins outs ins' outs' fmts fmts' _ _ n h0 hmem
    cases hmem
  | cons a rest ih =>
    intro ins outs ins' outs' fmts fmts' hnd h n h0 hmem hl
    cases a with
    | nested g => rw [parseArgLoop_nested] at h; exact absurd h (by simp)
    | simple a0 =>
      have hnd' : (simpleNames rest).Nodup ∧ a0 ∉ simpleNames rest := by
        rw [simpleNames] at hnd
        exact ⟨(List.nodup_cons.mp hnd).2, (List.nodup_cons.mp hnd).1⟩
      rw [parseArgLoop_simple] at h
      cases hh : dlookup th a0 with
      | none => rw [hh] at h; exact absurd h (by simp)
      | some hint =>
        rw [hh] at h
        cases List.mem_cons.mp hmem with
        | inl hEq =>
          have hna : n = a0 := by injection hEq
          subst hna
          rw [hl] at hh
          have hint_eq : hint = h0 := by injection hh with h2; exact h2.symm
          subst hint_eq
          cases hint with
          | inputArtifact t =>
            refine ⟨?_, ?_⟩
            · have hp := argLoop_preserve_lookup fr th n rest _ _ _ _ _ _
                hnd'.2 h
              rw [hp.1, dlookup_dinsert_self]
            · exact argLoop_fmts_mono fr th rest _ _ _ _ _ _ h _
                (List.mem_append_right _ (by simp))
          | inputArtifactUri t =>
            refine ⟨?_, ?_⟩
            · have hp := argLoop_preserve_lookup fr th n rest _ _ _ _ _ _
                hnd'.2 h
              rw [hp.1, dlookup_dinsert_self]
            · exact argLoop_fmts_mono fr th rest _ _ _ _ _ _ h _
                (List.mem_append_right _ (by simp))
          | outputArtifact t =>
            refine ⟨?_, ?_⟩
            · have hp := argLoop_preserve_lookup fr th n rest _ _ _ _ _ _
                hnd'.2 h
              rw [hp.2, dlookup_dinsert_self]
            · exact argLoop_fmts_mono fr th rest _ _ _ _ _ _ h _
                (List.mem_append_right _ (by simp))
          | outputArtifactUri t =>
            refine ⟨?_, ?_⟩
            · have hp := argLoop_preserve_lookup fr th n rest _ _ _ _ _ _
                hnd'.2 h
              rw [hp.2, dlookup_dinsert_self]
            · exact argLoop_fmts_mono fr th rest _ _ _ _ _ _ h _
                (List.mem_append_right _ (by simp))
          | prim p =>
            refine ⟨?_, ?_⟩
            · have hp := argLoop_preserve_lookup fr th n rest _ _ _ _ _ _
                hnd'.2 h
              rw [hp.1, dlookup_dinsert_self]
            · exact argLoop_fmts_mono fr th rest _ _ _ _ _ _ h _
                (List.mem_append_right _ (by simp))
          | bareArtifact t => exact absurd h (by simp)
          | componentOutput kw => exact absurd h (by simp)
          | otherHint d => exact absurd h (by simp)
        | inr hmem' =>
          cases hint with
          | inputArtifact t => exact ih _ _ _ _ _ _ hnd'.1 h n h0 hmem' hl
          | inputArtifactUri t => exact ih _ _ _ _ _ _ hnd'.1 h n h0 hmem' hl
          | outputArtifact t => exact ih _ _ _ _ _ _ hnd'.1 h n h0 hmem' hl
          | outputArtifactUri t => exact ih _ _ _ _ _ _ hnd'.1 h n h0 hmem' hl
          | prim p => exact ih _ _ _ _ _ _ hnd'.1 h n h0 hmem' hl
          | bareArtifact t => exact absurd h (by simp)
          | componentOutput kw => exact absurd h (by simp)
          | otherHint d => exact absurd h (by simp)

theorem keys_cons {α : Type} (a : String) (v : α) (rest : List (String × α)) :
    keys ((a, v) :: rest) = a :: keys rest := rfl

theorem retLoop_ok_field (fr : String) :
    ∀ (kwargs : List (String × TypeHint)) (outs outs2 : List (String × ArtifactTy)),
      parseReturnLoop fr kwargs outs = .ok outs2 →
      ∀ n h0, (n, h0) ∈ kwargs → ∃ p, h0 = TypeHint.prim p := by
  intro kwargs
  induction kwargs with
  | nil => intro outs outs2 _ n h0 hmem; cases hmem
  | cons q rest ih =>
    intro outs outs2 h n h0 hmem
    obtain ⟨a, ha⟩ := q
    cases List.mem_cons.mp hmem with
    | inl hEq =>
      have h1 := Prod.mk.inj hEq
      obtain ⟨h1a, h1b⟩ := h1
      subst h1b
      cases h0 with
      | prim p => exact ⟨p, rfl⟩
      | outputArtifact t => simp [parseReturnLoop] at h
      | outputArtifactUri t => simp [parseReturnLoop] at h
      | bareArtifact t => simp [parseReturnLoop] at h
      | inputArtifact t => simp [parseReturnLoop] at h
      | inputArtifactUri t => simp [parseReturnLoop] at h
      | componentOutput kw => simp [parseReturnLoop] at h
      | otherHint d => simp [parseReturnLoop] at h
    | inr hmem' =>
      cases ha with
      | prim p =>
        rw [parseReturnLoop] at h
        exact ih _ _ h n h0 hmem'
      | outputArtifact t => simp [parseReturnLoop] at h
      | outputArtifactUri t => simp [parseReturnLoop] at h
      | bareArtifact t => simp [parseReturnLoop] at h
      | inputArtifact t => simp [parseReturnLoop] at h
      | inputArtifactUri t => simp [parseReturnLoop] at h
      | componentOutput kw => simp [parseReturnLoop] at h
      | otherHint d => simp [parseReturnLoop] at h

theorem retLoop_preserve (fr : String) :
    ∀ (kwargs : List (String × TypeHint)) (outs outs2 : List (String × ArtifactTy))
      (n : String),
      n ∉ keys kwargs →
      parseReturnLoop fr kwargs outs = .ok outs2 →
      dlookup outs2 n = dlookup outs n := by
  intro kwargs
  induction kwargs with
  | nil =>
    intro outs outs2 n _ h
    rw [parseReturnLoop] at h
    have : outs = outs2 := by injection h
    rw [this]
  | cons q rest ih =>
    intro outs outs2 n hn h
    obtain ⟨a, ha⟩ := q
    rw [keys_cons] at hn
    have hna : a ≠ n := fun hEq => hn (hEq ▸ List.mem_cons_self _ _)
    have hn' : n ∉ keys rest := fun hmem => hn (List.mem_cons_of_mem _ hmem)
    cases ha with
    | prim p =>
      rw [parseReturnLoop] at h
      rw [ih _ _ _ hn' h, dlookup_dinsert_ne _ _ _ _ hna]
    | outputArtifact t => simp [parseReturnLoop] at h
    | outputArtifactUri t => simp [parseReturnLoop] at h
    | bareArtifact t => simp [parseReturnLoop] at h
    | inputArtifact t => simp [parseReturnLoop] at h
    | inputArtifactUri t => simp [parseReturnLoop] at h
    | componentOutput kw => simp [parseReturnLoop] at h
    | otherHint d => simp [parseReturnLoop] at h

theorem retLoop_value (fr : String) :
    ∀ (kwargs : List (String × TypeHint)) (outs outs2 : List (String × ArtifactTy))
      (n : String) (p : Primitive),
      (keys kwargs).Nodup →
      (n, TypeHint.prim p) ∈ kwargs →
      parseReturnLoop fr kwargs outs = .ok outs2 →
      dlookup outs2 n = some (primitiveToArtifact p) := by
  intro kwargs
  induction kwargs with
  | nil => intro outs outs2 n p _ hmem; cases hmem
  | cons q rest ih =>
    intro outs outs2 n p hnd hmem h
    obtain ⟨a, ha⟩ := q
    rw [keys_cons] at hnd
    have hnd' : (keys rest).Nodup := (List.nodup_cons.mp hnd).2
    have hfresh : a ∉ keys rest := (List.nodup_cons.mp hnd).1
    cases List.mem_cons.mp hmem with
    | inl hEq =>
      have h1 := Prod.mk.inj hEq
      obtain ⟨hEqn, hEqh⟩ := h1
      subst hEqn
      rw [← hEqh] at h
      rw [parseReturnLoop] at h
      rw [retLoop_preserve fr rest _ _ _ hfresh h, dlookup_dinsert_self]
    | inr hmem' =>
      cases ha with
      | prim p2 =>
        rw [parseReturnLoop] at h
        exact ih _ _ _ _ hnd' hmem' h
      | outputArtifact t => simp [parseReturnLoop] at h
      | outputArtifactUri t => simp [parseReturnLoop] at h
      | bareArtifact t => simp [parseReturnLoop] at h
      | inputArtifact t => simp [parseReturnLoop] at h
      | inputArtifactUri t => simp [parseReturnLoop] at h
      | componentOutput kw => simp [parseReturnLoop] at h
      | otherHint d => simp [parseReturnLoop] at h

theorem retLoop_mem_keys (fr : String) :
    ∀ (kwargs : List (String × TypeHint)) (outs outs2 : List (String × ArtifactTy)),
      parseReturnLoop fr kwargs outs = .ok outs2 →
      ∀ n, n ∈ keys outs2 ↔ (n ∈ keys outs ∨ n ∈ keys kwargs) := by
  intro kwargs
  induction kwargs with
  | nil =>
    intro outs outs2 h n
    rw [parseReturnLoop] at h
    have : outs = outs2 := by injection h
    subst this
    simp [keys]
  | cons q rest ih =>
    intro outs outs2 h n
    obtain ⟨a, ha⟩ := q
    cases ha with
    | prim p =>
      rw [parseReturnLoop] at h
      rw [ih _ _ h n, mem_keys_dinsert, keys_cons]
      simp
      tauto
    | outputArtifact t => simp [parseReturnLoop] at h
    | outputArtifactUri t => simp [parseReturnLoop] at h
    | bareArtifact t => simp [parseReturnLoop] at h
    | inputArtifact t => simp [parseReturnLoop] at h
    | inputArtifactUri t => simp [parseReturnLoop] at h
    | componentOutput kw => simp [parseReturnLoop] at h
    | otherHint d => simp [parseReturnLoop] at h

theorem retLoop_error (fr : String) :
    ∀ (kwargs : List (String × TypeHint)) (outs : List (String × ArtifactTy))
      (e : ParseError),
      parseReturnLoop fr kwargs outs = .error e →
      (e = ParseError.misplacedOutputArtifact fr ∧
        ∃ n h0, (n, h0) ∈ kwargs ∧ isArtifactHintB h0 = true) ∨
      (∃ n h0, (n, h0) ∈ kwargs ∧ isArtifactHintB h0 = false ∧
        isPrimHintB h0 = false ∧ e = ParseError.unknownOutputHint n fr) := by
  intro kwargs
  induction kwargs with
  | nil =>
    intro outs e h
    rw [parseReturnLoop] at h
    exact absurd h (by simp)
  | cons q rest ih =>
    intro outs e h
    obtain ⟨a, ha⟩ := q
    cases ha with
    | prim p =>
      rw [parseReturnLoop] at h
      cases ih _ _ h with
      | inl hl =>
        exact Or.inl ⟨hl.1, by
          obtain ⟨n, h0, hmem, hart⟩ := hl.2
          exact ⟨n, h0, List.mem_cons_of_mem _ hmem, hart⟩⟩
      | inr hr =>
        obtain ⟨n, h0, hmem, h1, h2, h3⟩ := hr
        exact Or.inr ⟨n, h0, List.mem_cons_of_mem _ hmem, h1, h2, h3⟩
    | outputArtifact t =>
      rw [parseReturnLoop] at h
      have he : ParseError.misplacedOutputArtifact fr = e := by injection h
      exact Or.inl ⟨he.symm, a, .outputArtifact t, List.mem_cons_self _ _, rfl⟩
    | outputArtifactUri t =>
      rw [parseReturnLoop] at h
      have he : ParseError.misplacedOutputArtifact fr = e := by injection h
      exact Or.inl ⟨he.symm, a, .outputArtifactUri t, List.mem_cons_self _ _, rfl⟩
    | bareArtifact t =>
      rw [parseReturnLoop] at h
      have he : ParseError.misplacedOutputArtifact fr = e := by injection h
      exact Or.inl ⟨he.symm, a, .bareArtifact t, List.mem_cons_self _ _, rfl⟩
    | inputArtifact t =>
      have h' : (Except.error (ParseError.unknownOutputHint a fr) :
          Except ParseError (List (String × ArtifactTy))) = .error e := h
      have he : ParseError.unknownOutputHint a fr = e := by injection h'
      exact Or.inr ⟨a, .inputArtifact t, List.mem_cons_self _ _, rfl, rfl, he.symm⟩
    | inputArtifactUri t =>
      have h' : (Except.error (ParseError.unknownOutputHint a fr) :
          Except ParseError (List (String × ArtifactTy))) = .error e := h
      have he : ParseError.unknownOutputHint a fr = e := by injection h'
      exact Or.inr ⟨a, .inputArtifactUri t, List.mem_cons_self _ _, rfl, rfl, he.symm⟩
    | componentOutput kw =>
      have h' : (Except.error (ParseError.unknownOutputHint a fr) :
          Except ParseError (List (String × ArtifactTy))) = .error e := h
      have he : ParseError.unknownOutputHint a fr = e := by injection h'
      exact Or.inr ⟨a, .componentOutput kw, List.mem_cons_self _ _, rfl, rfl, he.symm⟩
    | otherHint d =>
      have h' : (Except.error (ParseError.unknownOutputHint a fr) :
          Except ParseError (List (String × ArtifactTy))) = .error e := h
      have he : ParseError.unknownOutputHint a fr = e := by injection h'
      exact Or.inr ⟨a, .otherHint d, List.mem_cons_self _ _, rfl, rfl, he.symm⟩

theorem validateArgs_error_char (th : List (String × TypeHint)) (subj : String) :
    ∀ (args : List Arg) (e : ParseError),
      validateArgs th subj args = .error e →
      (e = ParseError.unsupportedNestedParam subj ∧ ∃ g, Arg.nested g ∈ args) ∨
      (e = ParseError.missingArgHint subj ∧
        ∃ n, Arg.simple n ∈ args ∧ dlookup th n = none) := by
  intro args
  induction args with
  | nil => intro e h; rw [validateArgs] at h; exact absurd h (by simp)
  | cons a rest ih =>
    intro e h
    cases a with
    | nested g =>
      rw [validateArgs] at h
      have he : ParseError.unsupportedNestedParam subj = e := by injection h
      exact Or.inl ⟨he.symm, g, List.mem_cons_self _ _⟩
    | simple n =>
      rw [validateArgs] at h
      by_cases hs : (dlookup th n).isSome
      · rw [if_pos hs] at h
        cases ih e h with
        | inl hl =>
          obtain ⟨g, hg⟩ := hl.2
          exact Or.inl ⟨hl.1, g, List.mem_cons_of_mem _ hg⟩
        | inr hr =>
          obtain ⟨m, hm1, hm2⟩ := hr.2
          exact Or.inr ⟨hr.1, m, List.mem_cons_of_mem _ hm1, hm2⟩
      · rw [if_neg hs] at h
        have he : ParseError.missingArgHint subj = e := by injection h
        exact Or.inr ⟨he.symm, n, List.mem_cons_self _ _,
          Option.not_isSome_iff_eq_none.mp hs⟩

theorem validate_error_subject (argspec : FullArgSpec)
    (th : List (String × TypeHint)) (subj : String) (e : ParseError)
    (h : validate_signature argspec th subj = .error e) :
    e = ParseError.missingOutputContract subj ∨
    e = ParseError.unsupportedVariadicParams subj ∨
    e = ParseError.unsupportedDefaultValue subj ∨
    e = ParseError.unsupportedNestedParam subj ∨
    e = ParseError.missingArgHint subj := by
  rw [validate_signature] at h
  by_cases h1 : goodReturn th = false
  · rw [if_pos h1] at h
    have : ParseError.missingOutputContract subj = e := by injection h
    exact Or.inl this.symm
  · rw [if_neg h1] at h
    by_cases h2 : variadicPresent argspec
    · rw [if_pos h2] at h
      have : ParseError.unsupportedVariadicParams subj = e := by injection h
      exact Or.inr (Or.inl this.symm)
    · rw [if_neg h2] at h
      by_cases h3 : !argspec.defaults.isEmpty
      · rw [if_pos h3] at h
        have : ParseError.unsupportedDefaultValue subj = e := by injection h
        exact Or.inr (Or.inr (Or.inl this.symm))
      · rw [if_neg h3] at h
        cases validateArgs_error_char th subj _ _ h with
        | inl hl => exact Or.inr (Or.inr (Or.inr (Or.inl hl.1)))
        | inr hr => exact Or.inr (Or.inr (Or.inr (Or.inr hr.1)))

theorem goodReturn_component (th : List (String × TypeHint))
    (h : goodReturn th = true) :
    ∃ kwargs, dlookup th "return" = some (.componentOutput kwargs) := by
  rw [goodReturn] at h
  cases hr : dlookup th "return" with
  | none => rw [hr] at h; simp at h
  | some hint =>
    rw [hr] at h
    cases hint with
    | componentOutput kw => exact ⟨kw, rfl⟩
    | inputArtifact t => simp at h
    | inputArtifactUri t => simp at h
    | outputArtifact t => simp at h
    | outputArtifactUri t => simp at h
    | prim p => simp at h
    | bareArtifact t => simp at h
    | otherHint d => simp at h

theorem parseSig_error_of_validated (func : Candidate) (argspec : FullArgSpec)
    (th : List (String × TypeHint)) (subj : String) (e : ParseError)
    (hv : validate_signature argspec th subj = .ok ())
    (h : parse_signature func argspec th = .error e) :
    (∃ a, e = ParseError.unknownInputHint a (pyRepr func)) ∨
    e = ParseError.misplacedOutputArtifact (pyRepr func) ∨
    (∃ a, e = ParseError.unknownOutputHint a (pyRepr func)) := by
  obtain ⟨hret, -, -, hargs⟩ := (validate_ok_iff argspec th subj).mp hv
  rw [parse_signature] at h
  split at h
  next e0 hA =>
    have he : e0 = e := by injection h
    subst he
    obtain ⟨n, -, -, -, -, hform⟩ :=
      argLoop_error_strong (pyRepr func) th argspec.args [] [] [] e0
        (argsOk_mem th argspec.args hargs) hA
    exact Or.inl ⟨n, hform⟩
  next ins outs fmts hA =>
    split at h
    next kwargs hret' =>
      split at h
      next e0 hRL =>
        have he : e0 = e := by injection h
        subst he
        cases retLoop_error (pyRepr func) kwargs outs e0 hRL with
        | inl hl => exact Or.inr (Or.inl hl.1)
        | inr hr =>
          obtain ⟨n, -, -, -, -, hform⟩ := hr
          exact Or.inr (Or.inr ⟨n, hform⟩)
      next outs2 hRL => exact absurd h (by simp)
    next =>
      obtain ⟨kwargs, hret'⟩ := goodReturn_component th hret
      simp_all

theorem parse_ok_shape (f : Candidate) (c : ParsedContract)
    (h : parse_typehint_component_function f = .ok c) :
    f.isFunction = true ∧
    validate_signature f.argspec f.typehints subjectMessage = .ok () ∧
    ∃ outs0 kwargs,
      parseArgLoop (pyRepr f) f.typehints f.argspec.args [] [] [] =
        .ok (c.inputs, outs0, c.arg_formats) ∧
      dlookup f.typehints "return" = some (.componentOutput kwargs) ∧
      parseReturnLoop (pyRepr f) kwargs outs0 = .ok c.outputs := by
  rw [parse_typehint_component_function] at h
  cases hb : f.isFunction with
  | false => rw [hb] at h; simp at h
  | true =>
    rw [hb] at h
    simp only [Bool.true_eq_false, if_false] at h
    split at h
    next e0 hv => exact absurd h (by simp)
    next u hv =>
      rw [parse_signature] at h
      split at h
      next e0 hA => exact absurd h (by simp)
      next ins outs fmts hA =>
        split at h
        next kwargs hret' =>
          split at h
          next e0 hRL => exact absurd h (by simp)
          next outs2 hRL =>
            simp only [Except.ok.injEq] at h
            subst h
            exact ⟨rfl, hv, outs, kwargs, hA, hret', hRL⟩
        next x hx hr2 => exact absurd h (by simp)

theorem charsPrefix_self_append :
    ∀ (l rest : List Char), charsPrefix l (l ++ rest) = true := by
  intro l
  induction l with
  | nil => intro rest; rfl
  | cons c cs ih => intro rest; simp [charsPrefix, ih]

theorem charsContains_of_prefix :
    ∀ (hay needle : List Char), charsPrefix needle hay = true →
      charsContains hay needle = true := by
  intro hay needle h
  cases hay with
  | nil =>
    cases needle with
    | nil => rfl
    | cons c cs => simp [charsPrefix] at h
  | cons c rest => simp [charsContains, h]

theorem charsContains_append_left :
    ∀ (pre hay needle : List Char), charsContains hay needle = true →
      charsContains (pre ++ hay) needle = true := by
  intro pre
  induction pre with
  | nil => intro hay needle h; simpa using h
  | cons c cs ih =>
    intro hay needle h
    simp only [List.cons_append, charsContains, Bool.or_eq_true]
    exact Or.inr (ih hay needle h)

theorem charsPrefix_extend :
    ∀ (needle l rest : List Char), charsPrefix needle l = true →
      charsPrefix needle (l ++ rest) = true := by
  intro needle
  induction needle with
  | nil => intro l rest _; rfl
  | cons c cs ih =>
    intro l rest h
    cases l with
    | nil => simp [charsPrefix] at h
    | cons b bs =>
      simp only [charsPrefix] at h ⊢
      by_cases hc : c = b
      · rw [if_pos hc] at h ⊢
        exact ih bs rest h
      · rw [if_neg hc] at h
        exact absurd h (by simp)

theorem charsContains_extend :
    ∀ (hay rest needle : List Char), charsContains hay needle = true →
      charsContains (hay ++ rest) needle = true := by
  intro hay
  induction hay with
  | nil =>
    intro rest needle h
    simp only [charsContains, List.isEmpty_iff] at h
    subst h
    simp only [List.nil_append]
    cases rest with
    | nil => rfl
    | cons c cs => simp [charsContains, charsPrefix]
  | cons c cs ih =>
    intro rest needle h
    simp only [charsContains, Bool.or_eq_true] at h ⊢
    cases h with
    | inl hp =>
      exact Or.inl (by
        have := charsPrefix_extend needle (c :: cs) rest hp
        simpa using this)
    | inr hc => exact Or.inr (ih rest needle hc)

theorem data_append (s t : String) : (s ++ t).data = s.data ++ t.data := by
  cases s
  cases t
  rfl

theorem strContains_refl (m : String) : strContains m m = true := by
  unfold strContains
  have := charsPrefix_self_append m.data []
  rw [List.append_nil] at this
  exact charsContains_of_prefix _ _ this

theorem strContains_append_right (a b m : String)
    (h : strContains b m = true) : strContains (a ++ b) m = true := by
  unfold strContains at h ⊢
  rw [data_append]
  exact charsContains_append_left _ _ _ h

theorem strContains_append_left_any (a b m : String)
    (h : strContains a m = true) : strContains (a ++ b) m = true := by
  unfold strContains at h ⊢
  rw [data_append]
  exact charsContains_extend _ _ _ h

theorem pyRepr_contains_name (f : Candidate) :
    strContains (pyRepr f) f.name = true := by
  rw [pyRepr]
  cases hb : f.isFunction with
  | true =>
    simp only [if_true]
    exact strContains_append_left_any _ _ _
      (strContains_append_right _ _ _ (strContains_refl _))
  | false =>
    simp only [Bool.false_eq_true, if_false]
    exact strContains_append_left_any _ _ _
      (strContains_append_right _ _ _ (strContains_refl _))

theorem mem_simpleNames_of : ∀ (args : List Arg) (n : String),
    Arg.simple n ∈ args → n ∈ simpleNames args := by
  intro args
  induction args with
  | nil => intro n hn; cases hn
  | cons a rest ih =>
    intro n hn
    cases a with
    | simple a0 =>
      cases List.mem_cons.mp hn with
      | inl hEq =>
        have : n = a0 := by injection hEq
        subst this
        exact List.mem_cons_self _ _
      | inr hmem => exact List.mem_cons_of_mem _ (ih n hmem)
    | nested g =>
      cases List.mem_cons.mp hn with
      | inl hEq => exact absurd hEq (by simp)
      | inr hmem => exact ih n hmem

theorem mem_inNames_of (th : List (String × TypeHint)) :
    ∀ (args : List Arg) (n : String), Arg.simple n ∈ args →
      isInputHint (dlookup th n) = true → n ∈ inNames th args := by
  intro args
  induction args with
  | nil => intro n hn; cases hn
  | cons a rest ih =>
    intro n hn hh
    cases a with
    | simple a0 =>
      cases List.mem_cons.mp hn with
      | inl hEq =>
        have : n = a0 := by injection hEq
        subst this
        rw [inNames, if_pos hh]
        exact List.mem_cons_self _ _
      | inr hmem =>
        by_cases hc : isInputHint (dlookup th a0)
        · rw [inNames, if_pos hc]
          exact List.mem_cons_of_mem _ (ih n hmem hh)
        · rw [inNames, if_neg hc]
          exact ih n hmem hh
    | nested g =>
      cases List.mem_cons.mp hn with
      | inl hEq => exact absurd hEq (by simp)
      | inr hmem => exact ih n hmem hh

theorem mem_outNames_of (th : List (String × TypeHint)) :
    ∀ (args : List Arg) (n : String), Arg.simple n ∈ args →
      isOutputHint (dlookup th n) = true → n ∈ outNames th args := by
  intro args
  induction args with
  | nil => intro n hn; cases hn
  | cons a rest ih =>
    intro n hn hh
    cases a with
    | simple a0 =>
      cases List.mem_cons.mp hn with
      | inl hEq =>
        have : n = a0 := by injection hEq
        subst this
        rw [outNames, if_pos hh]
        exact List.mem_cons_self _ _
      | inr hmem =>
        by_cases hc : isOutputHint (dlookup th a0)
        · rw [outNames, if_pos hc]
          exact List.mem_cons_of_mem _ (ih n hmem hh)
        · rw [outNames, if_neg hc]
          exact ih n hmem hh
    | nested g =>
      cases List.mem_cons.mp hn with
      | inl hEq => exact absurd hEq (by simp)
      | inr hmem => exact ih n hmem hh

/-- C2: for every declaration that parses successfully, `arg_formats` has
exactly one entry per declared parameter and lists the parameter names in
declaration order. -/
theorem C2_arg_formats_order (f : Candidate) (c : ParsedContract)
    (h : parse_typehint_component_function f = .ok c) :
    c.arg_formats.map Prod.snd = simpleNames f.argspec.args ∧
    c.arg_formats.length = f.argspec.args.length := by
  obtain ⟨-, -, outs0, kwargs, hA, -, -⟩ := parse_ok_shape f c h
  constructor
  · have := argLoop_names (pyRepr f) f.typehints f.argspec.args
      [] [] c.inputs outs0 [] c.arg_formats hA
    simpa using this
  · have := argLoop_length (pyRepr f) f.typehints f.argspec.args
      [] [] c.inputs outs0 [] c.arg_formats hA
    simpa using this

theorem C2_arg_formats_order_witness :
    parse_typehint_component_function exGood = .ok exGoodContract ∧
    (exGoodContract.arg_formats.map Prod.snd = simpleNames exGood.argspec.args ∧
     exGoodContract.arg_formats.length = exGood.argspec.args.length) :=
  ⟨by rfl, C2_arg_formats_order exGood exGoodContract (by rfl)⟩

/-- C6: a candidate that is not a plain function is rejected with the
not-a-function error before validation or lowering runs; a plain function
is validated and then lowered. -/
theorem C6_entry_point (f : Candidate) :
    (f.isFunction = false →
      parse_typehint_component_function f =
        .error (.notAFunction (pyRepr f))) ∧
    (f.isFunction = true →
      parse_typehint_component_function f =
        match validate_signature f.argspec f.typehints subjectMessage with
        | .error e => .error e
        | .ok _ => parse_signature f f.argspec f.typehints) := by
  constructor
  · intro hb
    rw [parse_typehint_component_function, hb]
    simp
  · intro hb
    rw [parse_typehint_component_function, hb]
    simp

theorem C6_entry_point_witness :
    parse_typehint_component_function exNotFn =
      .error (.notAFunction (pyRepr exNotFn)) ∧
    parse_typehint_component_function exGood =
      (match validate_signature exGood.argspec exGood.typehints subjectMessage with
       | .error e => .error e
       | .ok _ => parse_signature exGood exGood.argspec exGood.typehints) :=
  ⟨(C6_entry_point exNotFn).1 rfl, (C6_entry_point exGood).2 rfl⟩

/-- C7: parsing is deterministic; two successful runs on the same
declaration produce the same inputs, outputs and argument formats.  In
this pure embedding the parser is a function, so determinism and absence
of cross-call mutation hold by construction. -/
theorem C7_deterministic (f : Candidate) (c c' : ParsedContract)
    (h : parse_typehint_component_function f = .ok c)
    (h' : parse_typehint_component_function f = .ok c') :
    c.inputs = c'.inputs ∧ c.outputs = c'.outputs ∧
    c.arg_formats = c'.arg_formats := by
  rw [h] at h'
  have : c = c' := by injection h'
  subst this
  exact ⟨rfl, rfl, rfl⟩

theorem C7_deterministic_witness :
    parse_typehint_component_function exGood = .ok exGoodContract ∧
    (exGoodContract.inputs = exGoodContract.inputs ∧
     exGoodContract.outputs = exGoodContract.outputs ∧
     exGoodContract.arg_formats = exGoodContract.arg_formats) :=
  ⟨by rfl, C7_deterministic exGood exGoodContract exGoodContract (by rfl) (by rfl)⟩

/-- C9: once the validator has accepted the declaration, lowering can only
fail with one of its three deliberate semantic errors; the host-level
lookup failures modelled by `hostError` cannot occur. -/
theorem C9_lowering_safe (f : Candidate) (subj : String) (e : ParseError)
    (hv : validate_signature f.argspec f.typehints subj = .ok ())
    (h : parse_signature f f.argspec f.typehints = .error e) :
    isSemanticLoweringError e = true := by
  rcases parseSig_error_of_validated f f.argspec f.typehints subj e hv h with
    ⟨a, rfl⟩ | rfl | ⟨a, rfl⟩ <;> rfl

theorem C9_lowering_safe_witness :
    validate_signature exBadHint.argspec exBadHint.typehints subjectMessage =
      .ok () ∧
    parse_signature exBadHint exBadHint.argspec exBadHint.typehints =
      .error (.unknownInputHint "x" (pyRepr exBadHint)) ∧
    isSemanticLoweringError (.unknownInputHint "x" (pyRepr exBadHint)) = true :=
  ⟨by rfl, by rfl,
    C9_lowering_safe exBadHint subjectMessage _ (by rfl) (by rfl)⟩

/-- C10: when a primitive result-shape field shares its name with an
`OutputArtifact` or `OutputArtifactUri` parameter, parsing succeeds and
the final `outputs` entry for that name carries the primitive
lookup-table type: the result-shape pass runs after the parameter pass
and overwrites it. -/
theorem C10_result_field_shadows (f : Candidate) (c : ParsedContract)
    (n : String) (p : Primitive) (t : ArtifactTy)
    (kwargs : List (String × TypeHint))
    (h : parse_typehint_component_function f = .ok c)
    (hret : dlookup f.typehints "return" = some (.componentOutput kwargs))
    (hnd : (keys kwargs).Nodup)
    (hfield : (n, TypeHint.prim p) ∈ kwargs)
    (hparam : Arg.simple n ∈ f.argspec.args)
    (hhint : dlookup f.typehints n = some (.outputArtifact t) ∨
             dlookup f.typehints n = some (.outputArtifactUri t)) :
    dlookup c.outputs n = some (primitiveToArtifact p) := by
  obtain ⟨-, -, outs0, kwargs2, hA, hret2, hRL⟩ := parse_ok_shape f c h
  rw [hret] at hret2
  have h1 : TypeHint.componentOutput kwargs = TypeHint.componentOutput kwargs2 := by
    injection hret2
  have h2 : kwargs = kwargs2 := by injection h1
  subst h2
  exact retLoop_value (pyRepr f) kwargs outs0 c.outputs n p hnd hfield hRL

theorem C10_result_field_shadows_witness :
    parse_typehint_component_function exShadow = .ok exShadowContract ∧
    dlookup exShadowContract.outputs "blessing" =
      some (primitiveToArtifact .int) ∧
    parse_typehint_component_function exShadowUri = .ok exShadowUriContract ∧
    dlookup exShadowUriContract.outputs "blessing" =
      some (primitiveToArtifact .int) :=
  ⟨by rfl,
    C10_result_field_shadows exShadow exShadowContract "blessing" .int
      (.custom "InfraBlessing") [("blessing", .prim .int)] (by rfl) (by rfl)
      (by decide) (List.mem_cons_self _ _) (by decide) (Or.inl (by rfl)),
    by rfl,
    C10_result_field_shadows exShadowUri exShadowUriContract "blessing" .int
      (.custom "InfraBlessing") [("blessing", .prim .int)] (by rfl) (by rfl)
      (by decide) (List.mem_cons_self _ _) (by decide) (Or.inr (by rfl))⟩

/-- C4: the validator succeeds exactly on declarations with a
`ComponentOutput` return hint, no variadic parameters, no defaults, and
only plain annotated parameters; each structural defect yields its own
error, with the missing-output-contract check running first regardless of
parameter-level defects. -/
theorem C4_validator (argspec : FullArgSpec) (th : List (String × TypeHint))
    (subj : String) :
    (validate_signature argspec th subj = .ok () ↔
      (goodReturn th = true ∧ variadicPresent argspec = false ∧
       argspec.defaults = [] ∧ argsOk th argspec.args = true)) ∧
    (goodReturn th = false →
      validate_signature argspec th subj =
        .error (.missingOutputContract subj)) ∧
    (goodReturn th = true → variadicPresent argspec = true →
      validate_signature argspec th subj =
        .error (.unsupportedVariadicParams subj)) ∧
    (goodReturn th = true → variadicPresent argspec = false →
      argspec.defaults ≠ [] →
      validate_signature argspec th subj =
        .error (.unsupportedDefaultValue subj)) ∧
    (∀ e, validate_signature argspec th subj = .error e →
      (e = ParseError.missingOutputContract subj ∨
       e = ParseError.unsupportedVariadicParams subj ∨
       e = ParseError.unsupportedDefaultValue subj ∨
       e = ParseError.unsupportedNestedParam subj ∨
       e = ParseError.missingArgHint subj)) ∧
    (validate_signature argspec th subj =
        .error (.unsupportedNestedParam subj) →
      ∃ g, Arg.nested g ∈ argspec.args) ∧
    (validate_signature argspec th subj = .error (.missingArgHint subj) →
      ∃ n, Arg.simple n ∈ argspec.args ∧ dlookup th n = none) := by
  refine ⟨validate_ok_iff argspec th subj, ?_, ?_, ?_,
    validate_error_subject argspec th subj, ?_, ?_⟩
  · intro hg
    rw [validate_signature, if_pos hg]
  · intro hg hv
    have hg' : ¬(goodReturn th = false) := by simp [hg]
    rw [validate_signature, if_neg hg', if_pos hv]
  · intro hg hv hd
    have hg' : ¬(goodReturn th = false) := by simp [hg]
    have hv' : ¬(variadicPresent argspec = true) := by simp [hv]
    have hd' : (!argspec.defaults.isEmpty) = true := by
      cases hdd : argspec.defaults with
      | nil => exact absurd hdd hd
      | cons x xs => simp [hdd]
    rw [validate_signature, if_neg hg', if_neg (by simp [hv]), if_pos hd']
  · intro h
    rw [validate_signature] at h
    by_cases h1 : goodReturn th = false
    · rw [if_pos h1] at h
      exact absurd h (by simp)
    · rw [if_neg h1] at h
      by_cases h2 : variadicPresent argspec
      · rw [if_pos h2] at h
        exact absurd h (by simp)
      · rw [if_neg h2] at h
        by_cases h3 : (!argspec.defaults.isEmpty) = true
        · rw [if_pos h3] at h
          exact absurd h (by simp)
        · rw [if_neg h3] at h
          cases validateArgs_error_char th subj _ _ h with
          | inl hl => exact hl.2
          | inr hr => exact absurd hr.1 (by simp)
  · intro h
    rw [validate_signature] at h
    by_cases h1 : goodReturn th = false
    · rw [if_pos h1] at h
      exact absurd h (by simp)
    · rw [if_neg h1] at h
      by_cases h2 : variadicPresent argspec
      · rw [if_pos h2] at h
        exact absurd h (by simp)
      · rw [if_neg h2] at h
        by_cases h3 : (!argspec.defaults.isEmpty) = true
        · rw [if_pos h3] at h
          exact absurd h (by simp)
        · rw [if_neg h3] at h
          cases validateArgs_error_char th subj _ _ h with
          | inl hl => exact absurd hl.1 (by simp)
          | inr hr => exact hr.2

theorem C4_validator_witness :
    validate_signature exGood.argspec exGood.typehints subjectMessage =
      .ok () ∧
    (∃ g, Arg.nested g ∈ exNestedArg.argspec.args) ∧
    validate_signature exNestedArg.argspec exNestedArg.typehints
      subjectMessage = .error (.unsupportedNestedParam subjectMessage) :=
  ⟨(C4_validator exGood.argspec exGood.typehints subjectMessage).1.mpr
      (by decide),
   (C4_validator exNestedArg.argspec exNestedArg.typehints
      subjectMessage).2.2.2.2.2.1 (by rfl),
   by rfl⟩

/-- C5: each named field of the return `ComponentOutput` is classified on
its own: an artifact-typed hint aborts with the misplaced-output error
(whatever `outputs` already holds), a primitive hint is recorded into
`outputs` through the lookup table, anything else aborts with the
unknown-output error; and the return fields never touch `inputs` or
`arg_formats`, which come from the parameter pass alone. -/
theorem C5_result_fields :
    (∀ (fr : String) (kwargs : List (String × TypeHint))
       (outs outs2 : List (String × ArtifactTy)),
       parseReturnLoop fr kwargs outs = .ok outs2 →
       ∀ n h0, (n, h0) ∈ kwargs →
         ∃ p, h0 = TypeHint.prim p ∧
           ((keys kwargs).Nodup →
             dlookup outs2 n = some (primitiveToArtifact p))) ∧
    (∀ (fr : String) (kwargs : List (String × TypeHint))
       (outs : List (String × ArtifactTy)) (e : ParseError),
       parseReturnLoop fr kwargs outs = .error e →
       (e = ParseError.misplacedOutputArtifact fr ∧
         ∃ n h0, (n, h0) ∈ kwargs ∧ isArtifactHintB h0 = true) ∨
       (∃ n h0, (n, h0) ∈ kwargs ∧ isArtifactHintB h0 = false ∧
         isPrimHintB h0 = false ∧ e = ParseError.unknownOutputHint n fr)) ∧
    (∀ (f : Candidate) (c : ParsedContract),
       parse_typehint_component_function f = .ok c →
       ∃ outs0, parseArgLoop (pyRepr f) f.typehints f.argspec.args [] [] [] =
         .ok (c.inputs, outs0, c.arg_formats)) := by
  refine ⟨?_, ?_, ?_⟩
  · intro fr kwargs outs outs2 h n h0 hmem
    obtain ⟨p, hp⟩ := retLoop_ok_field fr kwargs outs outs2 h n h0 hmem
    subst hp
    exact ⟨p, rfl, fun hnd => retLoop_value fr kwargs outs outs2 n p hnd hmem h⟩
  · intro fr kwargs outs e h
    exact retLoop_error fr kwargs outs e h
  · intro f c h
    obtain ⟨-, -, outs0, kwargs, hA, -, -⟩ := parse_ok_shape f c h
    exact ⟨outs0, hA⟩

theorem C5_result_fields_witness :
    parseReturnLoop "fr" [("accuracy", .prim .float)] [] =
      .ok [("accuracy", ArtifactTy.FloatType)] ∧
    (∃ p, TypeHint.prim Primitive.float = TypeHint.prim p ∧
      ((keys [("accuracy", TypeHint.prim .float)]).Nodup →
        dlookup [("accuracy", ArtifactTy.FloatType)] "accuracy" =
          some (primitiveToArtifact p))) ∧
    parseReturnLoop "fr" [("blessing", .bareArtifact (.custom "X"))] [] =
      .error (.misplacedOutputArtifact "fr") :=
  ⟨by rfl,
   C5_result_fields.1 "fr" [("accuracy", .prim .float)] []
     [("accuracy", ArtifactTy.FloatType)] (by rfl) "accuracy"
     (TypeHint.prim Primitive.float) (List.mem_cons_self _ _),
   by rfl⟩

/-- C1: on a validated declaration the argument loop classifies every
parameter by its hint variant: input markers and primitives record into
`inputs` (primitives through the lookup table), output markers into
`outputs`, each appending its matching format tag; and when the loop
fails, the failure is the unknown-input error naming some parameter whose
hint has no format. -/
theorem C1_parameter_classification (fr subj : String)
    (argspec : FullArgSpec) (th : List (String × TypeHint))
    (hv : validate_signature argspec th subj = .ok ())
    (hnd : (simpleNames argspec.args).Nodup) :
    (∀ ins outs fmts,
       parseArgLoop fr th argspec.args [] [] [] = .ok (ins, outs, fmts) →
       ∀ n h0, Arg.simple n ∈ argspec.args → dlookup th n = some h0 →
         argClassified ins outs fmts n h0) ∧
    (∀ e, parseArgLoop fr th argspec.args [] [] [] = .error e →
       ∃ n h0, Arg.simple n ∈ argspec.args ∧ dlookup th n = some h0 ∧
         fmtOf h0 = none ∧ e = ParseError.unknownInputHint n fr) := by
  constructor
  · intro ins outs fmts h n h0 hmem hl
    exact argLoop_post_gen fr th argspec.args [] [] ins outs [] fmts
      hnd h n h0 hmem hl
  · intro e h
    obtain ⟨-, -, -, hargs⟩ := (validate_ok_iff argspec th subj).mp hv
    exact argLoop_error_strong fr th argspec.args [] [] [] e
      (argsOk_mem th argspec.args hargs) h

theorem C1_parameter_classification_witness :
    validate_signature exGood.argspec exGood.typehints subjectMessage =
      .ok () ∧
    argClassified
      [("model", .custom "Model"), ("threshold", .FloatType)]
      [("blessing", .custom "InfraBlessing")]
      [(.INPUT_ARTIFACT, "model"), (.ARTIFACT_VALUE, "threshold"),
       (.OUTPUT_ARTIFACT, "blessing")]
      "model" (.inputArtifact (.custom "Model")) :=
  ⟨by rfl,
   (C1_parameter_classification (pyRepr exGood) subjectMessage exGood.argspec
      exGood.typehints (by rfl) (by decide)).1
     [("model", .custom "Model"), ("threshold", .FloatType)]
     [("blessing", .custom "InfraBlessing")]
     [(.INPUT_ARTIFACT, "model"), (.ARTIFACT_VALUE, "threshold"),
      (.OUTPUT_ARTIFACT, "blessing")]
     (by rfl) "model" (.inputArtifact (.custom "Model")) (by decide) (by rfl)⟩

/-- C3 (amended): every parameter name of a successfully parsed
declaration appears exactly once in `arg_formats` and in at least one of
`inputs`/`outputs`; it appears in exactly one of the two unless a
primitive result-shape field carries the same name, in which case an
input-classified parameter name ends up in both mappings. -/
theorem C3_name_partition (f : Candidate) (c : ParsedContract)
    (h : parse_typehint_component_function f = .ok c)
    (hnd : (simpleNames f.argspec.args).Nodup) :
    ∀ n, Arg.simple n ∈ f.argspec.args →
      (c.arg_formats.map Prod.snd).count n = 1 ∧
      (n ∈ keys c.inputs ∨ n ∈ keys c.outputs) ∧
      (n ∈ keys c.inputs → n ∈ keys c.outputs →
        retPrimName f.typehints n = true) := by
  obtain ⟨-, hv, outs0, kwargs, hA, hret, hRL⟩ := parse_ok_shape f c h
  intro n hn
  have hmemN : n ∈ simpleNames f.argspec.args := mem_simpleNames_of _ _ hn
  have hkeys := argLoop_mem_keys (pyRepr f) f.typehints f.argspec.args
    [] [] c.inputs outs0 [] c.arg_formats hA
  have hinkeys : n ∈ keys c.inputs ↔ n ∈ inNames f.typehints f.argspec.args := by
    have := (hkeys n).1
    simpa [keys] using this
  have houtkeys0 : n ∈ keys outs0 ↔ n ∈ outNames f.typehints f.argspec.args := by
    have := (hkeys n).2
    simpa [keys] using this
  have houtkeys : n ∈ keys c.outputs ↔ (n ∈ keys outs0 ∨ n ∈ keys kwargs) :=
    retLoop_mem_keys (pyRepr f) kwargs outs0 c.outputs hRL n
  refine ⟨?_, ?_, ?_⟩
  · have hnames := argLoop_names (pyRepr f) f.typehints f.argspec.args
      [] [] c.inputs outs0 [] c.arg_formats hA
    rw [hnames]
    simp only [List.map_nil, List.nil_append]
    exact List.count_eq_one_of_mem hnd hmemN
  · cases argLoop_ok_hint (pyRepr f) f.typehints f.argspec.args
      [] [] c.inputs outs0 [] c.arg_formats hA n hn with
    | inl hin => exact Or.inl (hinkeys.mpr (mem_inNames_of _ _ _ hn hin))
    | inr hout =>
      exact Or.inr (houtkeys.mpr (Or.inl
        (houtkeys0.mpr (mem_outNames_of _ _ _ hn hout))))
  · intro hin hout
    have hinh : isInputHint (dlookup f.typehints n) = true :=
      mem_inNames_isInput _ _ _ (hinkeys.mp hin)
    have houth : isOutputHint (dlookup f.typehints n) = false :=
      isInput_not_isOutput _ hinh
    have hnko : n ∉ keys outs0 := by
      intro hk
      have := mem_outNames_isOutput f.typehints _ _ (houtkeys0.mp hk)
      rw [houth] at this
      exact absurd this (by simp)
    have hkk : n ∈ keys kwargs := by
      cases houtkeys.mp hout with
      | inl hk => exact absurd hk hnko
      | inr hk => exact hk
    obtain ⟨h0, hmem⟩ := mem_keys_exists kwargs n hkk
    obtain ⟨p, hp⟩ := retLoop_ok_field (pyRepr f) kwargs outs0 c.outputs hRL n h0 hmem
    subst hp
    unfold retPrimName
    rw [hret]
    show kwargs.any (fun q => if q.1 = n then isPrimHintB q.2 else false) = true
    exact List.any_eq_true.mpr ⟨(n, TypeHint.prim p), hmem, by simp [isPrimHintB]⟩

theorem C3_name_partition_counterexample :
    parse_typehint_component_function exCollide = .ok exCollideContract ∧
    Arg.simple "x" ∈ exCollide.argspec.args ∧
    "x" ∈ keys exCollideContract.inputs ∧
    "x" ∈ keys exCollideContract.outputs :=
  ⟨by rfl, by decide, by decide, by decide⟩

theorem C3_name_partition_witness :
    parse_typehint_component_function exGood = .ok exGoodContract ∧
    ((exGoodContract.arg_formats.map Prod.snd).count "model" = 1 ∧
     ("model" ∈ keys exGoodContract.inputs ∨
      "model" ∈ keys exGoodContract.outputs) ∧
     ("model" ∈ keys exGoodContract.inputs →
      "model" ∈ keys exGoodContract.outputs →
       retPrimName exGood.typehints "model" = true)) :=
  ⟨by rfl,
   C3_name_partition exGood exGoodContract (by rfl) (by decide) "model"
     (by decide)⟩

/-- C8 (amended): the not-a-function error and the three lowering errors
embed the candidate's repr, hence its name, in their messages, and the
two unknown-hint errors also embed the offending parameter or field name;
the five validation errors carry only the fixed subject phrase (which
names neither the declaration nor the parameter), and the misplaced
output error does not name the field. -/
theorem C8_error_naming (f : Candidate) (e : ParseError)
    (h : parse_typehint_component_function f = .error e) : C8post f e := by
  rw [parse_typehint_component_function] at h
  cases hb : f.isFunction with
  | false =>
    rw [hb] at h
    rw [if_pos rfl] at h
    have he : ParseError.notAFunction (pyRepr f) = e := by injection h
    subst he
    refine ⟨rfl, ?_⟩
    simp only [message]
    exact strContains_append_left_any _ _ _
      (strContains_append_right _ _ _ (pyRepr_contains_name f))
  | true =>
    rw [hb] at h
    rw [if_neg (by simp)] at h
    split at h
    next e0 hv =>
      have he : e0 = e := by injection h
      subst he
      rcases validate_error_subject f.argspec f.typehints subjectMessage e0 hv
        with rfl | rfl | rfl | rfl | rfl
      · exact rfl
      · exact rfl
      · exact rfl
      · exact rfl
      · exact rfl
    next u hv =>
      cases u
      rcases parseSig_error_of_validated f f.argspec f.typehints
        subjectMessage e hv h with ⟨a, rfl⟩ | rfl | ⟨a, rfl⟩
      · refine ⟨rfl, ?_, ?_⟩
        · simp only [message]
          exact strContains_append_right _ _ _
            (strContains_append_right _ _ _ (pyRepr_contains_name f))
        · simp only [message]
          exact strContains_append_left_any _ _ _
            (strContains_append_right _ _ _ (strContains_refl _))
      · refine ⟨rfl, ?_⟩
        simp only [message]
        exact strContains_append_left_any _ _ _
          (strContains_append_right _ _ _ (pyRepr_contains_name f))
      · refine ⟨rfl, ?_, ?_⟩
        · simp only [message]
          exact strContains_append_right _ _ _
            (strContains_append_right _ _ _ (pyRepr_contains_name f))
        · simp only [message]
          exact strContains_append_left_any _ _ _
            (strContains_append_right _ _ _ (strContains_refl _))

theorem C8_error_naming_counterexample :
    parse_typehint_component_function exNestedArg =
      .error (.unsupportedNestedParam subjectMessage) ∧
    strContains (message (.unsupportedNestedParam subjectMessage))
      exNestedArg.name = false :=
  ⟨by rfl, by decide⟩

theorem C8_error_naming_witness :
    parse_typehint_component_function exBadHint =
      .error (.unknownInputHint "x" (pyRepr exBadHint)) ∧
    C8post exBadHint (.unknownInputHint "x" (pyRepr exBadHint)) :=
  ⟨by rfl, C8_error_naming exBadHint _ (by rfl)⟩
